import Mathlib

/-!
Verification of the active-array bookkeeping of `pyvista/core/dataset.py`
(class `DataSet` and its helper `ActiveArrayInfo`).

The embedding models a dataset as the state the Python object carries:
the three name-keyed array tables (point, cell, field data), the VTK
per-association active-attribute pointers that `SetActiveScalars` /
`SetActiveVectors` / `SetActiveTensors` mutate, the three recorded
`ActiveArrayInfo` registers, the `_last_active_scalars_name` bookkeeping
slot and the texture table.  Property getters with side effects
(`active_scalars_info`, `active_vectors_info`, `array_names`, ...) become
functions returning the updated state next to their value; fallible
operations return the updated state next to an `Except` result, so that
the state reached by a failing call stays observable.

The status returned by the underlying VTK `SetActive*` call is an
external capability (spec section 6, `apply_active`): the operations take
it as a function argument `app : FieldAssociation → String → Int`, a
negative result meaning rejection.
-/

namespace PyVista

/-- Association of an array with a storage table: per-point data, per-cell
data, or dataset-level field data (`FieldAssociation.NONE` is the value the
code uses for field data). -/
inductive FieldAssociation where
  | POINT
  | CELL
  | NONE
deriving DecidableEq, Repr

/-- The two-field record `ActiveArrayInfo(association, name)` from
`pyvista/core/dataset.py`; `name = none` means no array is active for the
role.  Equality is field-wise, as in the Python `__eq__`. -/
structure ActiveArrayInfo where
  association : FieldAssociation
  name : Option String
deriving DecidableEq, Repr

/-- Backing data of one array; the bookkeeping under verification never
inspects the numbers, only moves them around. -/
abbrev Arr := List Int

/-- A name-keyed array table (vtkPointData / vtkCellData / vtkFieldData as
exposed through `DataSetAttributes`): ordered association list from unique
names to arrays. -/
abbrev Table := List (String × Arr)

/-- The names of a table, in iteration order. -/
def tableKeys (t : Table) : List String :=
  t.map Prod.fst

/-- Dictionary lookup in a table. -/
def tableGet (t : Table) (n : String) : Option Arr :=
  match t with
  | [] => none
  | (k, v) :: rest => if k = n then some v else tableGet rest n

/-- Remove the entry of a name from a table (`pop`). -/
def tableErase (t : Table) (n : String) : Table :=
  match t with
  | [] => []
  | (k, v) :: rest => if k = n then rest else (k, v) :: tableErase rest n

/-- Store an array under a name: replace the existing entry in place when
the name is present (as vtkFieldData does), append otherwise. -/
def tableSet (t : Table) (n : String) (v : Arr) : Table :=
  if n ∈ tableKeys t then
    t.map (fun p => if p.1 = n then (n, v) else p)
  else
    t ++ [(n, v)]

/-- `table[new_name] = table.pop(old_name)`: move the backing data of
`oldN` to `newN` within one table. -/
def tableMove (t : Table) (oldN newN : String) : Table :=
  match tableGet t oldN with
  | some v => tableSet (tableErase t oldN) newN v
  | none => t

/-- Errors raised by the operations: `ArrayNotFound` is the lookup failure
of `get_array`, `InvalidField` the `ValueError` for a field association the
operation cannot use, `ActivationError` the `ValueError` raised when the
underlying apply step returns a negative status. -/
inductive PvError where
  | ArrayNotFound (name : String)
  | InvalidField
  | ActivationError
deriving DecidableEq, Repr

/-- State of one `DataSet`: the three tables, the native per-association
active-attribute pointers, the recorded `ActiveArrayInfo` registers, the
`_last_active_scalars_name` slot and the texture table (textures are
abstract values here). -/
structure DataSet where
  pointTable : Table
  cellTable : Table
  fieldTable : Table
  pointActiveScalars : Option String
  cellActiveScalars : Option String
  pointActiveVectors : Option String
  cellActiveVectors : Option String
  pointActiveTensors : Option String
  cellActiveTensors : Option String
  lastActiveScalarsName : Option String
  scalarsInfo : ActiveArrayInfo
  vectorsInfo : ActiveArrayInfo
  tensorsInfo : ActiveArrayInfo
  textures : List (String × Nat)
deriving DecidableEq, Repr

/-- A freshly constructed dataset (`DataSet.__init__`): empty tables, all
three registers `ActiveArrayInfo(FieldAssociation.POINT, name=None)`, no
last-active name, no textures. -/
def emptyDS : DataSet where
  pointTable := []
  cellTable := []
  fieldTable := []
  pointActiveScalars := none
  cellActiveScalars := none
  pointActiveVectors := none
  cellActiveVectors := none
  pointActiveTensors := none
  cellActiveTensors := none
  lastActiveScalarsName := none
  scalarsInfo := ⟨FieldAssociation.POINT, none⟩
  vectorsInfo := ⟨FieldAssociation.POINT, none⟩
  tensorsInfo := ⟨FieldAssociation.POINT, none⟩
  textures := []

/-- The reserved exclusion set of `active_scalars_info`:
`{'__custom_rgba', 'Normals', 'vtkOriginalPointIds', 'TCoords'}`. -/
def exclude : List String :=
  ["__custom_rgba", "Normals", "vtkOriginalPointIds", "TCoords"]

/-- Whether a name is in the reserved exclusion set. -/
def reservedName (n : String) : Bool :=
  decide (n ∈ exclude)

/-- The recorded active-scalars name after the reserved-name substitution
step of `active_scalars_info`: a recorded name in the exclusion set is
replaced by `_last_active_scalars_name`. -/
def substitutedScalarsName (ds : DataSet) : Option String :=
  match ds.scalarsInfo.name with
  | some n => if reservedName n then ds.lastActiveScalarsName else some n
  | none => none

/-- `all_arrays = self.point_arrays.keys() + self.cell_arrays.keys()`. -/
def pointCellNames (ds : DataSet) : List String :=
  tableKeys ds.pointTable ++ tableKeys ds.cellTable

/-- The test `name is None or name not in all_arrays` of
`active_scalars_info`, on the substituted name. -/
def scalarsNameMissing (ds : DataSet) : Bool :=
  match substitutedScalarsName ds with
  | none => true
  | some n => decide (n ∉ pointCellNames ds)

/-- `next((arr for arr in attributes if arr not in exclude), None)`: first
name of a table scan that is not reserved. -/
def firstNonReserved (keys : List String) : Option String :=
  keys.find? (fun a => !reservedName a)

/-- The property getter `DataSet.active_scalars_info` (dataset.py lines
120-136): substitute a reserved recorded name with the last externally-set
one; when the resulting name is absent or not in the point/cell tables,
scan point arrays then cell arrays for the first non-reserved name and
record it on the register and on the per-association pointer; when no such
array exists, record name-absent with the previously recorded association.
Returns the updated state with the recorded info. -/
def active_scalars_info (ds : DataSet) : DataSet × ActiveArrayInfo :=
  if scalarsNameMissing ds then
    match firstNonReserved (tableKeys ds.pointTable) with
    | some a =>
      let ds2 := { ds with scalarsInfo := ⟨FieldAssociation.POINT, some a⟩,
                           pointActiveScalars := some a }
      (ds2, ds2.scalarsInfo)
    | none =>
      match firstNonReserved (tableKeys ds.cellTable) with
      | some a =>
        let ds2 := { ds with scalarsInfo := ⟨FieldAssociation.CELL, some a⟩,
                             cellActiveScalars := some a }
        (ds2, ds2.scalarsInfo)
      | none =>
        let ds2 := { ds with scalarsInfo := ⟨ds.scalarsInfo.association, none⟩ }
        (ds2, ds2.scalarsInfo)
  else (ds, ds.scalarsInfo)

/-- The property `DataSet.active_scalars_name`: the name of
`active_scalars_info` (the getter runs, with its side effects). -/
def active_scalars_name (ds : DataSet) : DataSet × Option String :=
  let p := active_scalars_info ds
  (p.1, p.2.name)

/-- The raw name list of `DataSet.array_names` before reordering: field,
point then cell array names. -/
def allNamesList (ds : DataSet) : List String :=
  tableKeys ds.fieldTable ++ tableKeys ds.pointTable ++ tableKeys ds.cellTable

/-- The property `DataSet.array_names`: field, point then cell array names,
with the active scalars name moved to the front when present
(`list.remove` + `insert(0, ...)`, the `ValueError` of a missing name
swallowed).  Reading `active_scalars_name` resolves, so the state is
returned too. -/
def array_names (ds : DataSet) : DataSet × List String :=
  let names := allNamesList ds
  let p := active_scalars_name ds
  match p.2 with
  | some n => if n ∈ names then (p.1, n :: names.erase n) else (p.1, names)
  | none => (p.1, names)

/-- Modelled from the spec: the repository's array lookup helper
(`pyvista.utilities.get_array` with `info=True`, whose source file is not
part of the excerpt) locates a name by searching the point, cell and field
tables, with the caller's preference association used as a tie-break when
the name exists in more than one table, and fails with `ArrayNotFound`
when the name is absent from all of them.  Only the resolved association
is needed here. -/
def get_array_field (ds : DataSet) (n : String) (preference : FieldAssociation) :
    Except PvError FieldAssociation :=
  let firstHit : Except PvError FieldAssociation :=
    if n ∈ tableKeys ds.pointTable then Except.ok FieldAssociation.POINT
    else if n ∈ tableKeys ds.cellTable then Except.ok FieldAssociation.CELL
    else if n ∈ tableKeys ds.fieldTable then Except.ok FieldAssociation.NONE
    else Except.error (PvError.ArrayNotFound n)
  if 1 < ((if n ∈ tableKeys ds.pointTable then 1 else 0)
      + (if n ∈ tableKeys ds.cellTable then 1 else 0)
      + (if n ∈ tableKeys ds.fieldTable then 1 else 0) : Nat) then
    match preference with
    | FieldAssociation.POINT =>
      if n ∈ tableKeys ds.pointTable then Except.ok FieldAssociation.POINT else firstHit
    | FieldAssociation.CELL =>
      if n ∈ tableKeys ds.cellTable then Except.ok FieldAssociation.CELL else firstHit
    | FieldAssociation.NONE =>
      if n ∈ tableKeys ds.fieldTable then Except.ok FieldAssociation.NONE else firstHit
  else firstHit

/-- `DataSet.set_active_scalars(name, preference='cell')` (dataset.py lines
527-548).  `name=None` clears the two per-association scalar pointers and
returns.  Otherwise the name is resolved, the current (resolved) active
name is recorded as `_last_active_scalars_name`, the selection is applied
through the external capability `app` (negative status raises), and on
success the register is replaced.  The state reached is returned even when
an error is raised. -/
def set_active_scalars (app : FieldAssociation → String → Int) (ds : DataSet)
    (name : Option String) (preference : FieldAssociation) :
    DataSet × Except PvError Unit :=
  match name with
  | none =>
    ({ ds with cellActiveScalars := none, pointActiveScalars := none }, Except.ok ())
  | some n =>
    match get_array_field ds n preference with
    | Except.error e => (ds, Except.error e)
    | Except.ok fld =>
      let p := active_scalars_info ds
      let ds2 := { p.1 with lastActiveScalarsName := p.2.name }
      match fld with
      | FieldAssociation.POINT =>
        if app FieldAssociation.POINT n < 0 then (ds2, Except.error PvError.ActivationError)
        else ({ ds2 with pointActiveScalars := some n,
                         scalarsInfo := ⟨FieldAssociation.POINT, some n⟩ }, Except.ok ())
      | FieldAssociation.CELL =>
        if app FieldAssociation.CELL n < 0 then (ds2, Except.error PvError.ActivationError)
        else ({ ds2 with cellActiveScalars := some n,
                         scalarsInfo := ⟨FieldAssociation.CELL, some n⟩ }, Except.ok ())
      | FieldAssociation.NONE => (ds2, Except.error PvError.InvalidField)

/-- `DataSet.set_active_vectors(name, preference='point')` (dataset.py
lines 550-571).  `name=None` clears both vector pointers and the register
becomes `(POINT, None)`; otherwise resolve, apply, and on success record
`(field, name)`.  No last-active tracking. -/
def set_active_vectors (app : FieldAssociation → String → Int) (ds : DataSet)
    (name : Option String) (preference : FieldAssociation) :
    DataSet × Except PvError Unit :=
  match name with
  | none =>
    ({ ds with cellActiveVectors := none, pointActiveVectors := none,
               vectorsInfo := ⟨FieldAssociation.POINT, none⟩ }, Except.ok ())
  | some n =>
    match get_array_field ds n preference with
    | Except.error e => (ds, Except.error e)
    | Except.ok fld =>
      match fld with
      | FieldAssociation.POINT =>
        if app FieldAssociation.POINT n < 0 then (ds, Except.error PvError.ActivationError)
        else ({ ds with pointActiveVectors := some n,
                        vectorsInfo := ⟨FieldAssociation.POINT, some n⟩ }, Except.ok ())
      | FieldAssociation.CELL =>
        if app FieldAssociation.CELL n < 0 then (ds, Except.error PvError.ActivationError)
        else ({ ds with cellActiveVectors := some n,
                        vectorsInfo := ⟨FieldAssociation.CELL, some n⟩ }, Except.ok ())
      | FieldAssociation.NONE => (ds, Except.error PvError.InvalidField)

/-- `DataSet.set_active_tensors(name, preference='point')` (dataset.py
lines 573-594), same contract as the vectors setter on the tensors
state. -/
def set_active_tensors (app : FieldAssociation → String → Int) (ds : DataSet)
    (name : Option String) (preference : FieldAssociation) :
    DataSet × Except PvError Unit :=
  match name with
  | none =>
    ({ ds with cellActiveTensors := none, pointActiveTensors := none,
               tensorsInfo := ⟨FieldAssociation.POINT, none⟩ }, Except.ok ())
  | some n =>
    match get_array_field ds n preference with
    | Except.error e => (ds, Except.error e)
    | Except.ok fld =>
      match fld with
      | FieldAssociation.POINT =>
        if app FieldAssociation.POINT n < 0 then (ds, Except.error PvError.ActivationError)
        else ({ ds with pointActiveTensors := some n,
                        tensorsInfo := ⟨FieldAssociation.POINT, some n⟩ }, Except.ok ())
      | FieldAssociation.CELL =>
        if app FieldAssociation.CELL n < 0 then (ds, Except.error PvError.ActivationError)
        else ({ ds with cellActiveTensors := some n,
                        tensorsInfo := ⟨FieldAssociation.CELL, some n⟩ }, Except.ok ())
      | FieldAssociation.NONE => (ds, Except.error PvError.InvalidField)

/-- The property getter `DataSet.active_vectors_info` (dataset.py lines
138-158): when no vectors name is recorded and `'Normals'` occurs in
`array_names`, adopt it through `set_active_vectors('Normals')` (default
point preference); otherwise return the recorded info unchanged. -/
def active_vectors_info (app : FieldAssociation → String → Int) (ds : DataSet) :
    DataSet × Except PvError ActiveArrayInfo :=
  if ds.vectorsInfo.name = none then
    let p := array_names ds
    if "Normals" ∈ p.2 then
      let q := set_active_vectors app p.1 (some "Normals") FieldAssociation.POINT
      match q.2 with
      | Except.error e => (q.1, Except.error e)
      | Except.ok _ => (q.1, Except.ok q.1.vectorsInfo)
    else (p.1, Except.ok p.1.vectorsInfo)
  else (ds, Except.ok ds.vectorsInfo)

/-- The property getter `DataSet.active_tensors_info`: pure accessor. -/
def active_tensors_info (ds : DataSet) : ActiveArrayInfo :=
  ds.tensorsInfo

/-- `DataSet.rename_array(old_name, new_name, preference='cell')`
(dataset.py lines 596-639): resolve the association of `old_name`, note
whether it is the active scalars name, move the backing data to `new_name`
within the resolved table, and when it was active re-run
`set_active_scalars(new_name, preference=field)`. -/
def rename_array (app : FieldAssociation → String → Int) (ds : DataSet)
    (old_name new_name : String) (preference : FieldAssociation) :
    DataSet × Except PvError Unit :=
  match get_array_field ds old_name preference with
  | Except.error e => (ds, Except.error e)
  | Except.ok fld =>
    let p := active_scalars_name ds
    let wasActive := p.2 = some old_name
    let ds2 :=
      match fld with
      | FieldAssociation.POINT => { p.1 with pointTable := tableMove p.1.pointTable old_name new_name }
      | FieldAssociation.CELL => { p.1 with cellTable := tableMove p.1.cellTable old_name new_name }
      | FieldAssociation.NONE => { p.1 with fieldTable := tableMove p.1.fieldTable old_name new_name }
    if wasActive then set_active_scalars app ds2 (some new_name) fld
    else (ds2, Except.ok ())

/-- `DataSet.copy_meta_from(ido)` (dataset.py lines 833-838): copy the
source's (resolved) active-scalars info, its (resolved) active-vectors
info and a copy of its texture table onto the destination; the tensors
register is not copied.  Reading the two source getters resolves them, so
the source state after the call is returned alongside the destination. -/
def copy_meta_from (app : FieldAssociation → String → Int) (dst src : DataSet) :
    (DataSet × DataSet) × Except PvError Unit :=
  let p := active_scalars_info src
  let dst1 := { dst with scalarsInfo := p.2 }
  let q := active_vectors_info app p.1
  match q.2 with
  | Except.error e => ((dst1, q.1), Except.error e)
  | Except.ok vi =>
    (({ dst1 with vectorsInfo := vi, textures := q.1.textures }, q.1), Except.ok ())

/-- An apply capability that accepts every activation. -/
def applyOk : FieldAssociation → String → Int :=
  fun _ _ => 0

/-! ### General lemmas about the helper functions -/

/-- A successful `find?` splits the list at the first satisfying element. -/
theorem find?_eq_some_split {α : Type} (p : α → Bool) (l : List α) (a : α)
    (h : l.find? p = some a) :
    ∃ l1 l2, l = l1 ++ a :: l2 ∧ p a = true ∧ ∀ b ∈ l1, p b = false := by
  induction l with
  | nil => simp [List.find?] at h
  | cons x xs ih =>
    by_cases hx : p x = true
    · rw [List.find?_cons_of_pos _ hx] at h
      have hxa : x = a := Option.some_injective _ h
      refine ⟨[], xs, ?_, ?_, ?_⟩
      · simp [hxa]
      · rw [← hxa]; exact hx
      · intro b hb; simp at hb
    · rw [List.find?_cons_of_neg _ hx] at h
      obtain ⟨l1, l2, hl, hpa, hall⟩ := ih h
      refine ⟨x :: l1, l2, by simp [hl], hpa, ?_⟩
      intro b hb
      rcases List.mem_cons.mp hb with hb | hb
      · rw [hb]; exact Bool.not_eq_true _ ▸ (by simpa using hx)
      · exact hall b hb

/-- The spec's description of the fallback scan: `a` is the first name of
`keys`, in iteration order, that is outside the reserved exclusion set. -/
def FirstNonReservedSpec (keys : List String) (a : String) : Prop :=
  ∃ l1 l2, keys = l1 ++ a :: l2 ∧ a ∉ exclude ∧ ∀ b ∈ l1, b ∈ exclude

/-- The translated scan helper agrees with the declarative description. -/
theorem firstNonReserved_eq_some_iff (keys : List String) (a : String) :
    firstNonReserved keys = some a ↔ FirstNonReservedSpec keys a := by
  constructor
  · intro h
    obtain ⟨l1, l2, hl, hpa, hall⟩ := find?_eq_some_split _ _ _ h
    refine ⟨l1, l2, hl, ?_, ?_⟩
    · simpa [reservedName] using hpa
    · intro b hb
      have := hall b hb
      simpa [reservedName] using this
  · rintro ⟨l1, l2, hl, ha, hall⟩
    subst hl
    unfold firstNonReserved
    induction l1 with
    | nil => simp [List.find?, reservedName, ha]
    | cons x xs ih =>
      have hx : x ∈ exclude := hall x (by simp)
      rw [List.cons_append, List.find?_cons_of_neg _ (by simp [reservedName, hx])]
      exact ih (fun b hb => hall b (List.mem_cons_of_mem _ hb))

/-- The scan fails exactly when every name of the list is reserved. -/
theorem firstNonReserved_eq_none_iff (keys : List String) :
    firstNonReserved keys = none ↔ ∀ b ∈ keys, b ∈ exclude := by
  unfold firstNonReserved
  rw [List.find?_eq_none]
  constructor
  · intro h b hb
    have := h b hb
    simpa [reservedName] using this
  · intro h b hb
    simp [reservedName, h b hb]

/-- A name produced by the scan is a non-reserved member of the list. -/
theorem firstNonReserved_mem (keys : List String) (a : String)
    (h : firstNonReserved keys = some a) :
    a ∈ keys ∧ reservedName a = false := by
  refine ⟨List.mem_of_find?_eq_some h, ?_⟩
  have := List.find?_some h
  simpa using this

/-! ### Lemmas about the table operations -/

/-- Keys of the empty table. -/
theorem tableKeys_nil : tableKeys ([] : Table) = [] := rfl

/-- Keys of a table cell by cell. -/
theorem tableKeys_cons (p : String × Arr) (rest : Table) :
    tableKeys (p :: rest) = p.1 :: tableKeys rest := rfl

/-- A name is a key exactly when lookup succeeds. -/
theorem mem_tableKeys_iff_get (t : Table) (n : String) :
    n ∈ tableKeys t ↔ ∃ v, tableGet t n = some v := by
  induction t with
  | nil => simp [tableKeys_nil, tableGet]
  | cons p rest ih =>
    rw [tableKeys_cons, List.mem_cons]
    by_cases hk : p.1 = n
    · simp [tableGet, hk]
    · rw [tableGet, if_neg hk, ← ih]
      simp [Ne.symm hk]

/-- Lookup after the in-place replacement of a present name. -/
theorem tableGet_map_update (n : String) (v : Arr) :
    ∀ t : Table, n ∈ tableKeys t →
      tableGet (t.map (fun p => if p.1 = n then (n, v) else p)) n = some v := by
  intro t
  induction t with
  | nil => intro h; simp [tableKeys_nil] at h
  | cons p rest ih =>
    intro h
    rw [List.map_cons]
    by_cases hk : p.1 = n
    · rw [if_pos hk, tableGet, if_pos rfl]
    · rw [if_neg hk, tableGet, if_neg hk]
      refine ih ?_
      rcases List.mem_cons.mp (by rwa [tableKeys_cons] at h) with h1 | h1
      · exact absurd h1.symm hk
      · exact h1

/-- Lookup of a fresh name after appending its entry. -/
theorem tableGet_append_single (n : String) (v : Arr) :
    ∀ t : Table, n ∉ tableKeys t → tableGet (t ++ [(n, v)]) n = some v := by
  intro t
  induction t with
  | nil => intro _; simp [tableGet]
  | cons p rest ih =>
    intro h
    rw [tableKeys_cons] at h
    have hk : ¬ p.1 = n := fun he => h (by rw [he]; exact List.mem_cons_self _ _)
    rw [List.cons_append, tableGet, if_neg hk]
    exact ih (fun hm => h (List.mem_cons_of_mem _ hm))

/-- Storing under a name makes that name retrievable with the stored
value. -/
theorem tableGet_tableSet_self (t : Table) (n : String) (v : Arr) :
    tableGet (tableSet t n v) n = some v := by
  unfold tableSet
  by_cases h : n ∈ tableKeys t
  · rw [if_pos h]
    exact tableGet_map_update n v t h
  · rw [if_neg h]
    exact tableGet_append_single n v t h

/-- The in-place replacement does not change the key list. -/
theorem tableKeys_map_update (n : String) (v : Arr) (t : Table) :
    tableKeys (t.map (fun p => if p.1 = n then (n, v) else p)) = tableKeys t := by
  induction t with
  | nil => rfl
  | cons p rest ih =>
    rw [List.map_cons, tableKeys_cons, tableKeys_cons, ih]
    by_cases hk : p.1 = n
    · rw [if_pos hk, hk]
    · rw [if_neg hk]

/-- Keys after a store are the old keys plus possibly the stored name. -/
theorem mem_tableKeys_tableSet (t : Table) (n : String) (v : Arr) (x : String)
    (h : x ∈ tableKeys (tableSet t n v)) : x ∈ tableKeys t ∨ x = n := by
  unfold tableSet at h
  by_cases hm : n ∈ tableKeys t
  · rw [if_pos hm, tableKeys_map_update] at h
    exact Or.inl h
  · rw [if_neg hm] at h
    rw [tableKeys, List.map_append, List.mem_append] at h
    rcases h with h1 | h1
    · exact Or.inl h1
    · right; simpa using h1

/-- Erasing a name removes it from the keys of a table with unique
names. -/
theorem not_mem_tableKeys_tableErase (t : Table) (n : String)
    (hnd : (tableKeys t).Nodup) : n ∉ tableKeys (tableErase t n) := by
  induction t with
  | nil => simp [tableErase, tableKeys_nil]
  | cons p rest ih =>
    rw [tableKeys_cons, List.nodup_cons] at hnd
    by_cases hk : p.1 = n
    · rw [tableErase, if_pos hk]
      rw [← hk]
      exact hnd.1
    · rw [tableErase, if_neg hk, tableKeys_cons]
      intro hmem
      rcases List.mem_cons.mp hmem with h1 | h1
      · exact hk h1.symm
      · exact ih hnd.2 h1

/-- Moving a name transports the backing data unchanged. -/
theorem tableGet_tableMove_self (t : Table) (oldN newN : String)
    (h : oldN ∈ tableKeys t) :
    tableGet (tableMove t oldN newN) newN = tableGet t oldN := by
  obtain ⟨v, hv⟩ := (mem_tableKeys_iff_get t oldN).mp h
  rw [tableMove, hv, tableGet_tableSet_self]

/-- After a move the new name is present. -/
theorem mem_tableKeys_tableMove (t : Table) (oldN newN : String)
    (h : oldN ∈ tableKeys t) :
    newN ∈ tableKeys (tableMove t oldN newN) := by
  refine (mem_tableKeys_iff_get _ _).mpr ?_
  obtain ⟨v, hv⟩ := (mem_tableKeys_iff_get t oldN).mp h
  exact ⟨v, by rw [tableGet_tableMove_self t oldN newN h, hv]⟩

/-- After a move to a different name, the old name is gone (unique
names). -/
theorem not_mem_tableKeys_tableMove (t : Table) (oldN newN : String)
    (hnd : (tableKeys t).Nodup) (hne : oldN ≠ newN) (h : oldN ∈ tableKeys t) :
    oldN ∉ tableKeys (tableMove t oldN newN) := by
  obtain ⟨v, hv⟩ := (mem_tableKeys_iff_get t oldN).mp h
  rw [tableMove, hv]
  intro hmem
  rcases mem_tableKeys_tableSet _ _ _ _ hmem with h1 | h1
  · exact not_mem_tableKeys_tableErase t oldN hnd h1
  · exact hne h1

/-! ### Lemmas about the lookup helper -/

/-- A lookup resolving to the point association found the name in the
point table. -/
theorem gaf_point_mem (ds : DataSet) (n : String) (pref : FieldAssociation)
    (h : get_array_field ds n pref = Except.ok FieldAssociation.POINT) :
    n ∈ tableKeys ds.pointTable := by
  by_cases hp : n ∈ tableKeys ds.pointTable
  · exact hp
  · exfalso
    by_cases hc : n ∈ tableKeys ds.cellTable <;>
      by_cases hf : n ∈ tableKeys ds.fieldTable <;>
      cases pref <;>
      simp [get_array_field, hp, hc, hf] at h

/-- A lookup resolving to the cell association found the name in the cell
table. -/
theorem gaf_cell_mem (ds : DataSet) (n : String) (pref : FieldAssociation)
    (h : get_array_field ds n pref = Except.ok FieldAssociation.CELL) :
    n ∈ tableKeys ds.cellTable := by
  by_cases hc : n ∈ tableKeys ds.cellTable
  · exact hc
  · exfalso
    by_cases hp : n ∈ tableKeys ds.pointTable <;>
      by_cases hf : n ∈ tableKeys ds.fieldTable <;>
      cases pref <;>
      simp [get_array_field, hp, hc, hf] at h

/-- With point preference, a name present in the point table resolves to
the point association. -/
theorem gaf_pref_point (ds : DataSet) (n : String)
    (h : n ∈ tableKeys ds.pointTable) :
    get_array_field ds n FieldAssociation.POINT = Except.ok FieldAssociation.POINT := by
  by_cases hc : n ∈ tableKeys ds.cellTable <;>
    by_cases hf : n ∈ tableKeys ds.fieldTable <;>
    simp [get_array_field, h, hc, hf]

/-- With cell preference, a name present in the cell table resolves to the
cell association. -/
theorem gaf_pref_cell (ds : DataSet) (n : String)
    (h : n ∈ tableKeys ds.cellTable) :
    get_array_field ds n FieldAssociation.CELL = Except.ok FieldAssociation.CELL := by
  by_cases hp : n ∈ tableKeys ds.pointTable <;>
    by_cases hf : n ∈ tableKeys ds.fieldTable <;>
    simp [get_array_field, h, hp, hf]

/-! ### Branch lemmas for `active_scalars_info` -/

/-- When the substituted name is still present, the getter is the identity
on the state and returns the recorded info. -/
theorem asi_present (ds : DataSet) (h : scalarsNameMissing ds = false) :
    active_scalars_info ds = (ds, ds.scalarsInfo) := by
  unfold active_scalars_info
  simp [h]

/-- When the name is missing and the point scan hits, the register and the
point-data active-scalar pointer take the found name. -/
theorem asi_point_hit (ds : DataSet) (a : String)
    (hm : scalarsNameMissing ds = true)
    (hp : firstNonReserved (tableKeys ds.pointTable) = some a) :
    active_scalars_info ds =
      ({ ds with scalarsInfo := ⟨FieldAssociation.POINT, some a⟩,
                 pointActiveScalars := some a },
       ⟨FieldAssociation.POINT, some a⟩) := by
  unfold active_scalars_info
  simp [hm, hp]

/-- When the name is missing, the point scan fails and the cell scan hits,
the register and the cell-data active-scalar pointer take the found name. -/
theorem asi_cell_hit (ds : DataSet) (a : String)
    (hm : scalarsNameMissing ds = true)
    (hp : firstNonReserved (tableKeys ds.pointTable) = none)
    (hc : firstNonReserved (tableKeys ds.cellTable) = some a) :
    active_scalars_info ds =
      ({ ds with scalarsInfo := ⟨FieldAssociation.CELL, some a⟩,
                 cellActiveScalars := some a },
       ⟨FieldAssociation.CELL, some a⟩) := by
  unfold active_scalars_info
  simp [hm, hp, hc]

/-- When the name is missing and both scans fail, the recorded association
is kept and the name becomes absent. -/
theorem asi_no_hit (ds : DataSet)
    (hm : scalarsNameMissing ds = true)
    (hp : firstNonReserved (tableKeys ds.pointTable) = none)
    (hc : firstNonReserved (tableKeys ds.cellTable) = none) :
    active_scalars_info ds =
      ({ ds with scalarsInfo := ⟨ds.scalarsInfo.association, none⟩ },
       ⟨ds.scalarsInfo.association, none⟩) := by
  unfold active_scalars_info
  simp [hm, hp, hc]

/-- A recorded non-reserved name that is present in the point or cell
tables is not missing. -/
theorem scalarsNameMissing_false (ds : DataSet) (a : String)
    (hrec : ds.scalarsInfo.name = some a)
    (hres : reservedName a = false)
    (hmem : a ∈ pointCellNames ds) :
    scalarsNameMissing ds = false := by
  unfold scalarsNameMissing substitutedScalarsName
  simp [hrec, hres, hmem]

/-- The scalars getter touches only the scalars register and the two
active-scalar pointers: every other state component is preserved. -/
theorem asi_preserve (ds : DataSet) :
    (active_scalars_info ds).1.pointTable = ds.pointTable ∧
    (active_scalars_info ds).1.cellTable = ds.cellTable ∧
    (active_scalars_info ds).1.fieldTable = ds.fieldTable ∧
    (active_scalars_info ds).1.vectorsInfo = ds.vectorsInfo ∧
    (active_scalars_info ds).1.tensorsInfo = ds.tensorsInfo ∧
    (active_scalars_info ds).1.textures = ds.textures ∧
    (active_scalars_info ds).1.lastActiveScalarsName = ds.lastActiveScalarsName ∧
    (active_scalars_info ds).1.pointActiveVectors = ds.pointActiveVectors ∧
    (active_scalars_info ds).1.cellActiveVectors = ds.cellActiveVectors ∧
    (active_scalars_info ds).1.pointActiveTensors = ds.pointActiveTensors ∧
    (active_scalars_info ds).1.cellActiveTensors = ds.cellActiveTensors ∧
    (active_scalars_info ds).1.scalarsInfo = (active_scalars_info ds).2 := by
  cases hb : scalarsNameMissing ds with
  | false =>
    rw [asi_present ds hb]
    exact ⟨rfl, rfl, rfl, rfl, rfl, rfl, rfl, rfl, rfl, rfl, rfl, rfl⟩
  | true =>
    rcases hp : firstNonReserved (tableKeys ds.pointTable) with _ | a
    · rcases hc : firstNonReserved (tableKeys ds.cellTable) with _ | a
      · rw [asi_no_hit ds hb hp hc]
        exact ⟨rfl, rfl, rfl, rfl, rfl, rfl, rfl, rfl, rfl, rfl, rfl, rfl⟩
      · rw [asi_cell_hit ds a hb hp hc]
        exact ⟨rfl, rfl, rfl, rfl, rfl, rfl, rfl, rfl, rfl, rfl, rfl, rfl⟩
    · rw [asi_point_hit ds a hb hp]
      exact ⟨rfl, rfl, rfl, rfl, rfl, rfl, rfl, rfl, rfl, rfl, rfl, rfl⟩

/-! ### Claim C1 -/

/-- Claim C1: whenever the (possibly substituted) recorded active-scalars
name is absent or no longer present in the point/cell tables,
`active_scalars_info` scans point arrays first, then cell arrays, in table
iteration order; it selects the first array whose name is outside the
reserved exclusion set and records it as active both in the register and
on that table's per-association active-scalar pointer; when no such array
exists in either table it returns an info with no name whose association
is the previously recorded one. -/
theorem scalars_resolution_scan (ds : DataSet)
    (hm : scalarsNameMissing ds = true) :
    (∀ a, FirstNonReservedSpec (tableKeys ds.pointTable) a →
      active_scalars_info ds =
        ({ ds with scalarsInfo := ⟨FieldAssociation.POINT, some a⟩,
                   pointActiveScalars := some a },
         ⟨FieldAssociation.POINT, some a⟩)) ∧
    (∀ a, (∀ b ∈ tableKeys ds.pointTable, b ∈ exclude) →
      FirstNonReservedSpec (tableKeys ds.cellTable) a →
      active_scalars_info ds =
        ({ ds with scalarsInfo := ⟨FieldAssociation.CELL, some a⟩,
                   cellActiveScalars := some a },
         ⟨FieldAssociation.CELL, some a⟩)) ∧
    ((∀ b ∈ tableKeys ds.pointTable, b ∈ exclude) →
      (∀ b ∈ tableKeys ds.cellTable, b ∈ exclude) →
      active_scalars_info ds =
        ({ ds with scalarsInfo := ⟨ds.scalarsInfo.association, none⟩ },
         ⟨ds.scalarsInfo.association, none⟩)) := by
  refine ⟨?_, ?_, ?_⟩
  · intro a ha
    exact asi_point_hit ds a hm ((firstNonReserved_eq_some_iff _ _).mpr ha)
  · intro a hp hc
    exact asi_cell_hit ds a hm ((firstNonReserved_eq_none_iff _).mpr hp)
      ((firstNonReserved_eq_some_iff _ _).mpr hc)
  · intro hp hc
    exact asi_no_hit ds hm ((firstNonReserved_eq_none_iff _).mpr hp)
      ((firstNonReserved_eq_none_iff _).mpr hc)

/-- Witness for C1: a dataset whose point table starts with a reserved name
followed by a plain name; the scan skips the reserved one, records the
plain one and sets the point active-scalar pointer. -/
theorem scalars_resolution_scan_witness :
    active_scalars_info { emptyDS with pointTable := [("Normals", [1]), ("a", [2])] } =
      ({ emptyDS with pointTable := [("Normals", [1]), ("a", [2])],
                      scalarsInfo := ⟨FieldAssociation.POINT, some "a"⟩,
                      pointActiveScalars := some "a" },
       ⟨FieldAssociation.POINT, some "a"⟩) :=
  (scalars_resolution_scan { emptyDS with pointTable := [("Normals", [1]), ("a", [2])] }
    (by decide)).1 "a" ⟨["Normals"], [], rfl, by decide, by decide⟩

/-! ### Claim C2 -/

/-- Claim C2, counterexample: on a dataset whose point table holds the
non-reserved array `"a"` and whose recorded info is `(POINT, "a")`,
`set_active_scalars(None)` followed by `get_active_scalars_info` yields the
name `"a"`, not an absent name as the claim requires (the clear never
touches the recorded register, and the recorded name is still present). -/
theorem scalars_clear_counterexample :
    ¬ ((active_scalars_info (set_active_scalars applyOk { emptyDS with pointTable := [("a", [1])], scalarsInfo := ⟨FieldAssociation.POINT, some "a"⟩ } none FieldAssociation.CELL).1).2.name = none) ∧
    (active_scalars_info (set_active_scalars applyOk { emptyDS with pointTable := [("a", [1])], scalarsInfo := ⟨FieldAssociation.POINT, some "a"⟩ } none FieldAssociation.CELL).1).2.name = some "a" := by
  decide

/-- Claim C2 (amended): `set_active_scalars(None)` clears the active-scalar
pointer of both the point and cell tables, mutates no array table entry
and leaves the recorded register untouched; when additionally every point
and cell array name is reserved and the substituted recorded name is
absent or not present, the subsequent `get_active_scalars_info` returns an
info with no name and the previously recorded association (in particular
`(POINT, absent)` on a fresh dataset). -/
theorem scalars_clear_amended (app : FieldAssociation → String → Int)
    (ds : DataSet) (pref : FieldAssociation) :
    (set_active_scalars app ds none pref).2 = Except.ok () ∧
    (set_active_scalars app ds none pref).1 =
      { ds with pointActiveScalars := none, cellActiveScalars := none } ∧
    ((∀ b ∈ tableKeys ds.pointTable, b ∈ exclude) →
      (∀ b ∈ tableKeys ds.cellTable, b ∈ exclude) →
      scalarsNameMissing ds = true →
      (active_scalars_info (set_active_scalars app ds none pref).1).2 =
        ⟨ds.scalarsInfo.association, none⟩) := by
  refine ⟨rfl, rfl, ?_⟩
  intro hp hc hm
  have h := asi_no_hit { ds with pointActiveScalars := none, cellActiveScalars := none }
    hm ((firstNonReserved_eq_none_iff _).mpr hp) ((firstNonReserved_eq_none_iff _).mpr hc)
  rw [show (set_active_scalars app ds none pref).1
      = { ds with pointActiveScalars := none, cellActiveScalars := none } from rfl, h]

/-- Witness for the amended C2, on a fresh dataset. -/
theorem scalars_clear_amended_witness :
    (active_scalars_info (set_active_scalars applyOk emptyDS none FieldAssociation.CELL).1).2 =
      ⟨FieldAssociation.POINT, none⟩ :=
  (scalars_clear_amended applyOk emptyDS FieldAssociation.CELL).2.2
    (by decide) (by decide) (by decide)

/-! ### Claim C3 -/

/-- Claim C3, counterexample: a dataset whose point table holds only the
reserved array `"Normals"` and whose cell table is empty satisfies the
claim's precondition, yet when the recorded name is the reserved
`"Normals"` and the last externally-set name is also `"Normals"`, the
substituted name is present in the tables and the getter returns the
reserved name instead of an absent one. -/
theorem reserved_only_counterexample :
    ¬ ((active_scalars_info { emptyDS with pointTable := [("Normals", [1])], scalarsInfo := ⟨FieldAssociation.POINT, some "Normals"⟩, lastActiveScalarsName := some "Normals" }).2.name = none) ∧
    (active_scalars_info { emptyDS with pointTable := [("Normals", [1])], scalarsInfo := ⟨FieldAssociation.POINT, some "Normals"⟩, lastActiveScalarsName := some "Normals" }).2.name = some "Normals" := by
  decide

/-- Claim C3 (amended): on a dataset whose point and cell tables contain
only reserved names, and whose recorded name — after the reserved-name
substitution by the last externally-set active name — is absent or not
present in those tables, `get_active_scalars_info` returns an info with no
name even though arrays exist; the fallback scan never selects a reserved
name. -/
theorem reserved_only_amended (ds : DataSet)
    (hp : ∀ b ∈ tableKeys ds.pointTable, b ∈ exclude)
    (hc : ∀ b ∈ tableKeys ds.cellTable, b ∈ exclude)
    (hm : scalarsNameMissing ds = true) :
    (active_scalars_info ds).2.name = none := by
  rw [asi_no_hit ds hm ((firstNonReserved_eq_none_iff _).mpr hp)
    ((firstNonReserved_eq_none_iff _).mpr hc)]

/-- Witness for the amended C3: a texture-coordinate array is the only
point array, the recorded name is that reserved name, and no
last externally-set name exists. -/
theorem reserved_only_amended_witness :
    (active_scalars_info { emptyDS with pointTable := [("TCoords", [1])], scalarsInfo := ⟨FieldAssociation.POINT, some "TCoords"⟩ }).2.name = none :=
  reserved_only_amended
    { emptyDS with pointTable := [("TCoords", [1])], scalarsInfo := ⟨FieldAssociation.POINT, some "TCoords"⟩ }
    (by decide) (by decide) (by decide)

/-! ### Claim C4 -/

/-- Claim C4, counterexample: the dataset has the non-reserved array `"a"`
in its point table, but its recorded active scalars is the still-present
cell array `"c"`; after clearing active scalars the getter returns the
cell array's info, not the point array's, refuting the claim's universal
statement. -/
theorem resolution_stability_counterexample :
    (active_scalars_info (set_active_scalars applyOk { emptyDS with pointTable := [("a", [1])], cellTable := [("c", [2])], scalarsInfo := ⟨FieldAssociation.CELL, some "c"⟩ } none FieldAssociation.CELL).1).2 = ⟨FieldAssociation.CELL, some "c"⟩ ∧
    (⟨FieldAssociation.CELL, some "c"⟩ : ActiveArrayInfo) ≠ ⟨FieldAssociation.POINT, some "a"⟩ := by
  decide

/-- Claim C4 (amended): on a dataset whose substituted recorded name is
absent or not present in the tables and whose point table has a first
non-reserved array, `get_active_scalars_info` evaluated after clearing
active scalars returns that point array's info, and evaluating it a second
time immediately afterwards returns the identical info with no further
change to the state (idempotent resolution). -/
theorem resolution_stability_amended (app : FieldAssociation → String → Int)
    (ds : DataSet) (pref : FieldAssociation) (a : String)
    (hm : scalarsNameMissing ds = true)
    (hp : FirstNonReservedSpec (tableKeys ds.pointTable) a) :
    (active_scalars_info (set_active_scalars app ds none pref).1).2 =
      ⟨FieldAssociation.POINT, some a⟩ ∧
    (active_scalars_info (active_scalars_info (set_active_scalars app ds none pref).1).1).2 =
      ⟨FieldAssociation.POINT, some a⟩ ∧
    (active_scalars_info (active_scalars_info (set_active_scalars app ds none pref).1).1).1 =
      (active_scalars_info (set_active_scalars app ds none pref).1).1 := by
  have hp' := (firstNonReserved_eq_some_iff _ _).mpr hp
  have hmem := firstNonReserved_mem _ _ hp'
  have h1 := asi_point_hit { ds with pointActiveScalars := none, cellActiveScalars := none }
    a hm hp'
  have hstep : (set_active_scalars app ds none pref).1
      = { ds with pointActiveScalars := none, cellActiveScalars := none } := rfl
  rw [hstep, h1]
  have h2 := asi_present
    { ds with cellActiveScalars := none,
              scalarsInfo := ⟨FieldAssociation.POINT, some a⟩,
              pointActiveScalars := some a }
    (scalarsNameMissing_false _ a rfl hmem.2
      (List.mem_append_left _ hmem.1))
  exact ⟨rfl, by rw [h2], by rw [h2]⟩

/-- Witness for the amended C4, on a dataset holding one plain point
array. -/
theorem resolution_stability_amended_witness :
    (active_scalars_info (set_active_scalars applyOk { emptyDS with pointTable := [("a", [1])] } none FieldAssociation.CELL).1).2 = ⟨FieldAssociation.POINT, some "a"⟩ :=
  (resolution_stability_amended applyOk { emptyDS with pointTable := [("a", [1])] }
    FieldAssociation.CELL "a" (by decide) ⟨[], [], rfl, by decide, by decide⟩).1

/-! ### Claim C6 -/

/-- Claim C6, counterexample: on a dataset with point arrays `"a"` (the
current active scalars) and `"b"`, activating `"b"` against an apply
capability that rejects it raises `ActivationError`, but the dataset state
is not left unchanged: `_last_active_scalars_name` has already been
overwritten with the pre-call active name before the failure. -/
theorem activation_error_counterexample :
    (set_active_scalars (fun _ n => if n = "b" then -1 else 0) { emptyDS with pointTable := [("a", [1]), ("b", [2])], scalarsInfo := ⟨FieldAssociation.POINT, some "a"⟩ } (some "b") FieldAssociation.CELL).2 = Except.error PvError.ActivationError ∧
    (set_active_scalars (fun _ n => if n = "b" then -1 else 0) { emptyDS with pointTable := [("a", [1]), ("b", [2])], scalarsInfo := ⟨FieldAssociation.POINT, some "a"⟩ } (some "b") FieldAssociation.CELL).1.lastActiveScalarsName = some "a" ∧
    ({ emptyDS with pointTable := [("a", [1]), ("b", [2])], scalarsInfo := ⟨FieldAssociation.POINT, some "a"⟩ } : DataSet).lastActiveScalarsName = none ∧
    (set_active_scalars (fun _ n => if n = "b" then -1 else 0) { emptyDS with pointTable := [("a", [1]), ("b", [2])], scalarsInfo := ⟨FieldAssociation.POINT, some "a"⟩ } (some "b") FieldAssociation.CELL).1 ≠ { emptyDS with pointTable := [("a", [1]), ("b", [2])], scalarsInfo := ⟨FieldAssociation.POINT, some "a"⟩ } := by
  refine ⟨rfl, rfl, rfl, ?_⟩
  decide

/-- Claim C6 (amended): when the name resolves to a point or cell
association and the apply step returns a negative status,
`set_active_scalars` raises `ActivationError` immediately; the recorded
`ActiveArrayInfo` is not replaced and no pointer is activated for the new
name, but the state is not fully as before: it is the state left by
reading `active_scalars_info` (whose resolution may itself write), with
`_last_active_scalars_name` already overwritten by the pre-call active
name. -/
theorem activation_error_amended (app : FieldAssociation → String → Int)
    (ds : DataSet) (n : String) (pref fld : FieldAssociation)
    (hres : get_array_field ds n pref = Except.ok fld)
    (hfld : fld = FieldAssociation.POINT ∨ fld = FieldAssociation.CELL)
    (happ : app fld n < 0) :
    set_active_scalars app ds (some n) pref =
      ({ (active_scalars_info ds).1 with
           lastActiveScalarsName := (active_scalars_info ds).2.name },
       Except.error PvError.ActivationError) := by
  rcases hfld with rfl | rfl <;>
    simp [set_active_scalars, hres, happ]

/-- Witness for the amended C6: the rejected activation of `"b"` leaves the
state with the pre-call active name `"a"` recorded as last active. -/
theorem activation_error_amended_witness :
    set_active_scalars (fun _ n => if n = "b" then -1 else 0) { emptyDS with pointTable := [("a", [1]), ("b", [2])], scalarsInfo := ⟨FieldAssociation.POINT, some "a"⟩ } (some "b") FieldAssociation.CELL =
      ({ (active_scalars_info { emptyDS with pointTable := [("a", [1]), ("b", [2])], scalarsInfo := ⟨FieldAssociation.POINT, some "a"⟩ }).1 with
           lastActiveScalarsName := (active_scalars_info { emptyDS with pointTable := [("a", [1]), ("b", [2])], scalarsInfo := ⟨FieldAssociation.POINT, some "a"⟩ }).2.name },
       Except.error PvError.ActivationError) :=
  activation_error_amended (fun _ n => if n = "b" then -1 else 0)
    { emptyDS with pointTable := [("a", [1]), ("b", [2])], scalarsInfo := ⟨FieldAssociation.POINT, some "a"⟩ }
    "b" FieldAssociation.CELL FieldAssociation.POINT rfl (Or.inl rfl) (by decide)

/-! ### Claim C5 -/

/-- The table an association designates. -/
def roleTable (ds : DataSet) : FieldAssociation → Table
  | FieldAssociation.POINT => ds.pointTable
  | FieldAssociation.CELL => ds.cellTable
  | FieldAssociation.NONE => ds.fieldTable

/-- The lookup helper reads only the three tables. -/
theorem gaf_congr (ds1 ds2 : DataSet) (n : String) (pref : FieldAssociation)
    (hP : ds1.pointTable = ds2.pointTable)
    (hC : ds1.cellTable = ds2.cellTable)
    (hF : ds1.fieldTable = ds2.fieldTable) :
    get_array_field ds1 n pref = get_array_field ds2 n pref := by
  unfold get_array_field
  rw [hP, hC, hF]

/-- Claim C5, counterexample: with `"a"` the active scalars and the only
point array, `rename_array("a", "Normals")` succeeds and moves the data,
but the subsequent active-scalars name is absent, not `"Normals"`: the new
name lands in the reserved exclusion set, so the getter substitutes and
then fails to resolve. -/
theorem rename_active_counterexample :
    (rename_array applyOk { emptyDS with pointTable := [("a", [5])], scalarsInfo := ⟨FieldAssociation.POINT, some "a"⟩ } "a" "Normals" FieldAssociation.CELL).2 = Except.ok () ∧
    (rename_array applyOk { emptyDS with pointTable := [("a", [5])], scalarsInfo := ⟨FieldAssociation.POINT, some "a"⟩ } "a" "Normals" FieldAssociation.CELL).1.pointTable = [("Normals", [5])] ∧
    (active_scalars_name (rename_array applyOk { emptyDS with pointTable := [("a", [5])], scalarsInfo := ⟨FieldAssociation.POINT, some "a"⟩ } "a" "Normals" FieldAssociation.CELL).1).2 = none := by
  refine ⟨rfl, ?_, ?_⟩ <;> decide

/-- The state of the dataset in `rename_array` after the active-name read
and the table move, for each resolved association. -/
def renMoved (ds : DataSet) (old_name new_name : String) :
    FieldAssociation → DataSet
  | FieldAssociation.POINT =>
    { (active_scalars_name ds).1 with
        pointTable := tableMove (active_scalars_name ds).1.pointTable old_name new_name }
  | FieldAssociation.CELL =>
    { (active_scalars_name ds).1 with
        cellTable := tableMove (active_scalars_name ds).1.cellTable old_name new_name }
  | FieldAssociation.NONE =>
    { (active_scalars_name ds).1 with
        fieldTable := tableMove (active_scalars_name ds).1.fieldTable old_name new_name }

/-- `rename_array` on the active name reduces to the table move followed by
`set_active_scalars` on the new name with the resolved association as
preference. -/
theorem rename_array_active_eq (app : FieldAssociation → String → Int)
    (ds : DataSet) (old_name new_name : String) (pref fld : FieldAssociation)
    (hres : get_array_field ds old_name pref = Except.ok fld)
    (hact : (active_scalars_name ds).2 = some old_name) :
    rename_array app ds old_name new_name pref =
      set_active_scalars app (renMoved ds old_name new_name fld) (some new_name) fld := by
  cases fld <;>
    simp only [rename_array, hres, hact, renMoved, eq_self_iff_true, if_true]

/-- A successful point activation in `set_active_scalars`: last-active is
overwritten with the getter's name, the point pointer and the register take
the new name. -/
theorem sas_ok_point (app : FieldAssociation → String → Int) (ds : DataSet)
    (n : String) (pref : FieldAssociation)
    (hres : get_array_field ds n pref = Except.ok FieldAssociation.POINT)
    (happ : 0 ≤ app FieldAssociation.POINT n) :
    set_active_scalars app ds (some n) pref =
      ({ (active_scalars_info ds).1 with
           lastActiveScalarsName := (active_scalars_info ds).2.name,
           pointActiveScalars := some n,
           scalarsInfo := ⟨FieldAssociation.POINT, some n⟩ },
       Except.ok ()) := by
  have hnotlt : ¬ app FieldAssociation.POINT n < 0 := not_lt.mpr happ
  simp only [set_active_scalars, hres, hnotlt, if_false, ite_false]

/-- A successful cell activation in `set_active_scalars`. -/
theorem sas_ok_cell (app : FieldAssociation → String → Int) (ds : DataSet)
    (n : String) (pref : FieldAssociation)
    (hres : get_array_field ds n pref = Except.ok FieldAssociation.CELL)
    (happ : 0 ≤ app FieldAssociation.CELL n) :
    set_active_scalars app ds (some n) pref =
      ({ (active_scalars_info ds).1 with
           lastActiveScalarsName := (active_scalars_info ds).2.name,
           cellActiveScalars := some n,
           scalarsInfo := ⟨FieldAssociation.CELL, some n⟩ },
       Except.ok ()) := by
  have hnotlt : ¬ app FieldAssociation.CELL n < 0 := not_lt.mpr happ
  simp only [set_active_scalars, hres, hnotlt, if_false, ite_false]

/-- Claim C5 (amended): when `old_name` is the active-scalars name and
resolves to the point or cell association, and `new_name` is not a
reserved name, `rename_array` succeeds, moves the backing data unchanged
from `old_name` to `new_name` within the resolved table (with unique table
names, the old name disappears), and afterwards the active-scalars name is
`new_name` (activeness follows the rename). -/
theorem rename_active_amended (app : FieldAssociation → String → Int)
    (ds : DataSet) (old_name new_name : String) (pref fld : FieldAssociation)
    (hres : get_array_field ds old_name pref = Except.ok fld)
    (hfld : fld = FieldAssociation.POINT ∨ fld = FieldAssociation.CELL)
    (hact : (active_scalars_name ds).2 = some old_name)
    (hnew : reservedName new_name = false)
    (happ : 0 ≤ app fld new_name)
    (hnd : (tableKeys (roleTable ds fld)).Nodup)
    (hne : old_name ≠ new_name) :
    (rename_array app ds old_name new_name pref).2 = Except.ok () ∧
    tableGet (roleTable (rename_array app ds old_name new_name pref).1 fld) new_name
      = tableGet (roleTable ds fld) old_name ∧
    old_name ∉ tableKeys (roleTable (rename_array app ds old_name new_name pref).1 fld) ∧
    (active_scalars_name (rename_array app ds old_name new_name pref).1).2 = some new_name := by
  have hP1 : (active_scalars_name ds).1.pointTable = ds.pointTable := (asi_preserve ds).1
  have hC1 : (active_scalars_name ds).1.cellTable = ds.cellTable := (asi_preserve ds).2.1
  rcases hfld with rfl | rfl
  · -- point association
    have hold : old_name ∈ tableKeys ds.pointTable := gaf_point_mem ds old_name pref hres
    have holdm : old_name ∈ tableKeys (active_scalars_name ds).1.pointTable := by
      rw [hP1]; exact hold
    have hmemnew : new_name ∈
        tableKeys (renMoved ds old_name new_name FieldAssociation.POINT).pointTable :=
      mem_tableKeys_tableMove _ _ _ holdm
    have hres2 : get_array_field (renMoved ds old_name new_name FieldAssociation.POINT)
        new_name FieldAssociation.POINT = Except.ok FieldAssociation.POINT :=
      gaf_pref_point _ _ hmemnew
    rw [rename_array_active_eq app ds old_name new_name pref FieldAssociation.POINT hres hact,
      sas_ok_point app _ new_name FieldAssociation.POINT hres2 happ]
    have hMpt : (active_scalars_info (renMoved ds old_name new_name
        FieldAssociation.POINT)).1.pointTable = tableMove ds.pointTable old_name new_name := by
      rw [(asi_preserve _).1]
      show tableMove (active_scalars_name ds).1.pointTable old_name new_name = _
      rw [hP1]
    refine ⟨rfl, ?_, ?_, ?_⟩
    · show tableGet (active_scalars_info (renMoved ds old_name new_name
        FieldAssociation.POINT)).1.pointTable new_name = tableGet ds.pointTable old_name
      rw [hMpt]
      exact tableGet_tableMove_self _ _ _ hold
    · show old_name ∉ tableKeys (active_scalars_info (renMoved ds old_name new_name
        FieldAssociation.POINT)).1.pointTable
      rw [hMpt]
      exact not_mem_tableKeys_tableMove _ _ _ hnd hne hold
    · have hmem4 : new_name ∈ pointCellNames
          { (active_scalars_info (renMoved ds old_name new_name FieldAssociation.POINT)).1 with
              lastActiveScalarsName := (active_scalars_info (renMoved ds old_name new_name FieldAssociation.POINT)).2.name,
              pointActiveScalars := some new_name,
              scalarsInfo := ⟨FieldAssociation.POINT, some new_name⟩ } := by
        refine List.mem_append_left _ ?_
        show new_name ∈ tableKeys (active_scalars_info (renMoved ds old_name new_name
          FieldAssociation.POINT)).1.pointTable
        rw [hMpt]
        exact mem_tableKeys_tableMove _ _ _ hold
      have hmiss := scalarsNameMissing_false _ new_name rfl hnew hmem4
      show (active_scalars_info _).2.name = some new_name
      rw [asi_present _ hmiss]
  · -- cell association
    have hold : old_name ∈ tableKeys ds.cellTable := gaf_cell_mem ds old_name pref hres
    have holdm : old_name ∈ tableKeys (active_scalars_name ds).1.cellTable := by
      rw [hC1]; exact hold
    have hmemnew : new_name ∈
        tableKeys (renMoved ds old_name new_name FieldAssociation.CELL).cellTable :=
      mem_tableKeys_tableMove _ _ _ holdm
    have hres2 : get_array_field (renMoved ds old_name new_name FieldAssociation.CELL)
        new_name FieldAssociation.CELL = Except.ok FieldAssociation.CELL :=
      gaf_pref_cell _ _ hmemnew
    rw [rename_array_active_eq app ds old_name new_name pref FieldAssociation.CELL hres hact,
      sas_ok_cell app _ new_name FieldAssociation.CELL hres2 happ]
    have hMct : (active_scalars_info (renMoved ds old_name new_name
        FieldAssociation.CELL)).1.cellTable = tableMove ds.cellTable old_name new_name := by
      rw [(asi_preserve _).2.1]
      show tableMove (active_scalars_name ds).1.cellTable old_name new_name = _
      rw [hC1]
    refine ⟨rfl, ?_, ?_, ?_⟩
    · show tableGet (active_scalars_info (renMoved ds old_name new_name
        FieldAssociation.CELL)).1.cellTable new_name = tableGet ds.cellTable old_name
      rw [hMct]
      exact tableGet_tableMove_self _ _ _ hold
    · show old_name ∉ tableKeys (active_scalars_info (renMoved ds old_name new_name
        FieldAssociation.CELL)).1.cellTable
      rw [hMct]
      exact not_mem_tableKeys_tableMove _ _ _ hnd hne hold
    · have hmem4 : new_name ∈ pointCellNames
          { (active_scalars_info (renMoved ds old_name new_name FieldAssociation.CELL)).1 with
              lastActiveScalarsName := (active_scalars_info (renMoved ds old_name new_name FieldAssociation.CELL)).2.name,
              cellActiveScalars := some new_name,
              scalarsInfo := ⟨FieldAssociation.CELL, some new_name⟩ } := by
        refine List.mem_append_right _ ?_
        show new_name ∈ tableKeys (active_scalars_info (renMoved ds old_name new_name
          FieldAssociation.CELL)).1.cellTable
        rw [hMct]
        exact mem_tableKeys_tableMove _ _ _ hold
      have hmiss := scalarsNameMissing_false _ new_name rfl hnew hmem4
      show (active_scalars_info _).2.name = some new_name
      rw [asi_present _ hmiss]

/-- Witness for the amended C5: the active point array `"a"` renamed to the
plain name `"b"`; afterwards `"b"` is the active-scalars name. -/
theorem rename_active_amended_witness :
    (active_scalars_name (rename_array applyOk { emptyDS with pointTable := [("a", [5])], scalarsInfo := ⟨FieldAssociation.POINT, some "a"⟩ } "a" "b" FieldAssociation.CELL).1).2 = some "b" :=
  (rename_active_amended applyOk
    { emptyDS with pointTable := [("a", [5])], scalarsInfo := ⟨FieldAssociation.POINT, some "a"⟩ }
    "a" "b" FieldAssociation.CELL FieldAssociation.POINT rfl (Or.inl rfl) rfl
    (by decide) (by decide) (by decide) (by decide)).2.2.2

/-! ### Lemmas about `array_names` and the vectors operations -/

/-- `array_names` changes the state exactly as reading
`active_scalars_info` does. -/
theorem an_state (ds : DataSet) : (array_names ds).1 = (active_scalars_info ds).1 := by
  unfold array_names active_scalars_name
  dsimp only
  rcases h : (active_scalars_info ds).2.name with _ | n
  · rfl
  · dsimp only
    split <;> rfl

/-- Moving the active name to the front does not change membership in the
name list. -/
theorem mem_array_names (ds : DataSet) (x : String) :
    x ∈ (array_names ds).2 ↔ x ∈ allNamesList ds := by
  unfold array_names
  dsimp only
  rcases h : (active_scalars_name ds).2 with _ | n
  · exact Iff.rfl
  · dsimp only
    by_cases hm : n ∈ allNamesList ds
    · rw [if_pos hm]
      constructor
      · intro hx
        rcases List.mem_cons.mp hx with rfl | hx
        · exact hm
        · exact List.mem_of_mem_erase hx
      · intro hx
        by_cases hxn : x = n
        · exact hxn ▸ List.mem_cons_self _ _
        · exact List.mem_cons_of_mem _ ((List.mem_erase_of_ne hxn).mpr hx)
    · rw [if_neg hm]

/-- Clearing the active vectors: both pointers and the register reset. -/
theorem sav_clear (app : FieldAssociation → String → Int) (ds : DataSet)
    (pref : FieldAssociation) :
    set_active_vectors app ds none pref =
      ({ ds with cellActiveVectors := none, pointActiveVectors := none,
                 vectorsInfo := ⟨FieldAssociation.POINT, none⟩ }, Except.ok ()) := rfl

/-- A successful point activation in `set_active_vectors`. -/
theorem sav_ok_point (app : FieldAssociation → String → Int) (ds : DataSet)
    (n : String) (pref : FieldAssociation)
    (hres : get_array_field ds n pref = Except.ok FieldAssociation.POINT)
    (happ : 0 ≤ app FieldAssociation.POINT n) :
    set_active_vectors app ds (some n) pref =
      ({ ds with pointActiveVectors := some n,
                 vectorsInfo := ⟨FieldAssociation.POINT, some n⟩ }, Except.ok ()) := by
  have hnotlt : ¬ app FieldAssociation.POINT n < 0 := not_lt.mpr happ
  simp only [set_active_vectors, hres, hnotlt, if_false, ite_false]

/-- A successful cell activation in `set_active_vectors`. -/
theorem sav_ok_cell (app : FieldAssociation → String → Int) (ds : DataSet)
    (n : String) (pref : FieldAssociation)
    (hres : get_array_field ds n pref = Except.ok FieldAssociation.CELL)
    (happ : 0 ≤ app FieldAssociation.CELL n) :
    set_active_vectors app ds (some n) pref =
      ({ ds with cellActiveVectors := some n,
                 vectorsInfo := ⟨FieldAssociation.CELL, some n⟩ }, Except.ok ()) := by
  have hnotlt : ¬ app FieldAssociation.CELL n < 0 := not_lt.mpr happ
  simp only [set_active_vectors, hres, hnotlt, if_false, ite_false]

/-- `set_active_vectors` never touches the texture table. -/
theorem sav_textures (app : FieldAssociation → String → Int) (ds : DataSet)
    (name : Option String) (pref : FieldAssociation) :
    (set_active_vectors app ds name pref).1.textures = ds.textures := by
  cases name with
  | none => rfl
  | some n =>
    rcases hres : get_array_field ds n pref with e | fld
    · simp [set_active_vectors, hres]
    · cases fld <;> simp only [set_active_vectors, hres] <;> split <;> rfl

/-- When no vectors name is recorded, `"Normals"` is among the array names
and its lookup with point preference resolves to a point or cell
association accepted by the apply step, the vectors getter adopts it. -/
theorem avi_adopts (app : FieldAssociation → String → Int) (ds : DataSet)
    (fld : FieldAssociation)
    (h0 : ds.vectorsInfo.name = none)
    (hmem : "Normals" ∈ allNamesList ds)
    (hres : get_array_field ds "Normals" FieldAssociation.POINT = Except.ok fld)
    (hfld : fld = FieldAssociation.POINT ∨ fld = FieldAssociation.CELL)
    (happ : 0 ≤ app fld "Normals") :
    (active_vectors_info app ds).2 = Except.ok ⟨fld, some "Normals"⟩ := by
  unfold active_vectors_info
  rw [if_pos h0]
  dsimp only
  have hmem2 : "Normals" ∈ (array_names ds).2 := (mem_array_names ds _).mpr hmem
  rw [if_pos hmem2]
  have hres2 : get_array_field (array_names ds).1 "Normals" FieldAssociation.POINT
      = Except.ok fld := by
    rw [gaf_congr (array_names ds).1 ds "Normals" FieldAssociation.POINT
      (by rw [an_state ds]; exact (asi_preserve ds).1)
      (by rw [an_state ds]; exact (asi_preserve ds).2.1)
      (by rw [an_state ds]; exact (asi_preserve ds).2.2.1)]
    exact hres
  rcases hfld with rfl | rfl
  · rw [sav_ok_point app _ _ _ hres2 happ]
  · rw [sav_ok_cell app _ _ _ hres2 happ]

/-- The vectors getter never touches the texture table. -/
theorem avi_textures (app : FieldAssociation → String → Int) (ds : DataSet) :
    (active_vectors_info app ds).1.textures = ds.textures := by
  unfold active_vectors_info
  by_cases h0 : ds.vectorsInfo.name = none
  · rw [if_pos h0]
    dsimp only
    by_cases hm : "Normals" ∈ (array_names ds).2
    · rw [if_pos hm]
      rcases hr : (set_active_vectors app (array_names ds).1 (some "Normals")
          FieldAssociation.POINT).2 with e | u
      · dsimp only
        rw [sav_textures, an_state ds, (asi_preserve ds).2.2.2.2.2.1]
      · dsimp only
        rw [sav_textures, an_state ds, (asi_preserve ds).2.2.2.2.2.1]
    · rw [if_neg hm]
      show (array_names ds).1.textures = ds.textures
      rw [an_state ds, (asi_preserve ds).2.2.2.2.2.1]
  · rw [if_neg h0]

/-! ### Claim C7 -/

/-- Claim C7, counterexample: a dataset with no recorded vectors name and no
point array at all, but a cell array literally named `"Normals"`: the
getter adopts it (as a cell array), refuting both the "only if a point
array named Normals exists" direction and the "otherwise the recorded info
is returned unchanged" clause. -/
theorem vectors_adopt_counterexample :
    ({ emptyDS with cellTable := [("Normals", [1])] } : DataSet).pointTable = [] ∧
    ({ emptyDS with cellTable := [("Normals", [1])] } : DataSet).vectorsInfo.name = none ∧
    (active_vectors_info applyOk { emptyDS with cellTable := [("Normals", [1])] }).2
      = Except.ok ⟨FieldAssociation.CELL, some "Normals"⟩ := ⟨rfl, rfl, rfl⟩

/-- Claim C7 (amended): with a recorded vectors name the getter returns the
recorded info with no state change; with no recorded name and no array
named `"Normals"` in any table it returns the recorded info (the only state
change coming from the embedded scalars resolution of `array_names`),
performing no table-scan fallback; with no recorded name it adopts
`"Normals"` whenever that name occurs in any of the field, point or cell
tables and resolves (point preference) to a point or cell association the
apply step accepts. -/
theorem vectors_info_amended (app : FieldAssociation → String → Int) (ds : DataSet) :
    (∀ x, ds.vectorsInfo.name = some x →
      active_vectors_info app ds = (ds, Except.ok ds.vectorsInfo)) ∧
    (ds.vectorsInfo.name = none → "Normals" ∉ allNamesList ds →
      active_vectors_info app ds = ((active_scalars_info ds).1, Except.ok ds.vectorsInfo)) ∧
    (∀ fld, ds.vectorsInfo.name = none → "Normals" ∈ allNamesList ds →
      get_array_field ds "Normals" FieldAssociation.POINT = Except.ok fld →
      (fld = FieldAssociation.POINT ∨ fld = FieldAssociation.CELL) →
      0 ≤ app fld "Normals" →
      (active_vectors_info app ds).2 = Except.ok ⟨fld, some "Normals"⟩) := by
  refine ⟨?_, ?_, ?_⟩
  · intro x hx
    unfold active_vectors_info
    rw [if_neg (by rw [hx]; exact Option.some_ne_none x)]
  · intro h0 hnm
    unfold active_vectors_info
    rw [if_pos h0]
    dsimp only
    have hnm2 : "Normals" ∉ (array_names ds).2 :=
      fun hmem => hnm ((mem_array_names ds _).mp hmem)
    rw [if_neg hnm2]
    rw [an_state ds, (asi_preserve ds).2.2.2.1]
  · intro fld h0 hmem hres hfld happ
    exact avi_adopts app ds fld h0 hmem hres hfld happ

/-- Witness for the amended C7: a point array named `"Normals"` is adopted
with the point association. -/
theorem vectors_info_amended_witness :
    (active_vectors_info applyOk { emptyDS with pointTable := [("Normals", [1])] }).2
      = Except.ok ⟨FieldAssociation.POINT, some "Normals"⟩ :=
  (vectors_info_amended applyOk { emptyDS with pointTable := [("Normals", [1])] }).2.2
    FieldAssociation.POINT rfl (by decide) rfl (Or.inl rfl) (by decide)

/-! ### Claim C8 -/

/-- Claim C8, counterexample: a dataset with a point array `"Normals"` and
recorded active vectors `"Normals"`; after `set_active_vectors(None)` the
recorded name is absent, but the very next `get_active_vectors_info`
re-adopts `"Normals"` instead of keeping the name absent. -/
theorem vectors_readopt_counterexample :
    (set_active_vectors applyOk { emptyDS with pointTable := [("Normals", [1])], vectorsInfo := ⟨FieldAssociation.POINT, some "Normals"⟩ } none FieldAssociation.POINT).1.vectorsInfo.name = none ∧
    (active_vectors_info applyOk (set_active_vectors applyOk { emptyDS with pointTable := [("Normals", [1])], vectorsInfo := ⟨FieldAssociation.POINT, some "Normals"⟩ } none FieldAssociation.POINT).1).2
      = Except.ok ⟨FieldAssociation.POINT, some "Normals"⟩ := ⟨rfl, rfl⟩

/-- Claim C8 (amended): on a dataset containing a point array named
`"Normals"` (and an apply step accepting it), after
`set_active_vectors(None)` the next `get_active_vectors_info` DOES re-adopt
`"Normals"`: the fallback fires whenever no name is recorded, including
right after an explicit clear. -/
theorem vectors_readopt_amended (app : FieldAssociation → String → Int)
    (ds : DataSet) (pref : FieldAssociation)
    (hmem : "Normals" ∈ tableKeys ds.pointTable)
    (happ : 0 ≤ app FieldAssociation.POINT "Normals") :
    (active_vectors_info app (set_active_vectors app ds none pref).1).2
      = Except.ok ⟨FieldAssociation.POINT, some "Normals"⟩ := by
  refine avi_adopts app _ FieldAssociation.POINT rfl ?_ ?_ (Or.inl rfl) happ
  · exact List.mem_append_left _ (List.mem_append_right _ hmem)
  · exact gaf_pref_point _ _ hmem

/-- Witness for the amended C8. -/
theorem vectors_readopt_amended_witness :
    (active_vectors_info applyOk (set_active_vectors applyOk { emptyDS with pointTable := [("Normals", [1])] } none FieldAssociation.POINT).1).2
      = Except.ok ⟨FieldAssociation.POINT, some "Normals"⟩ :=
  vectors_readopt_amended applyOk { emptyDS with pointTable := [("Normals", [1])] }
    FieldAssociation.POINT (by decide) (by decide)

/-! ### Claim C9 -/

/-- Claim C9: clearing via `set_active_vectors(None)` or
`set_active_tensors(None)` always resets the corresponding register to
`(POINT, name absent)`, while `set_active_scalars(None)` returns without
touching the recorded scalars register; all three clears succeed. -/
theorem clear_role_registers (app : FieldAssociation → String → Int)
    (ds : DataSet) (p1 p2 p3 : FieldAssociation) :
    (set_active_vectors app ds none p1).1.vectorsInfo = ⟨FieldAssociation.POINT, none⟩ ∧
    (set_active_tensors app ds none p2).1.tensorsInfo = ⟨FieldAssociation.POINT, none⟩ ∧
    (set_active_scalars app ds none p3).1.scalarsInfo = ds.scalarsInfo ∧
    (set_active_vectors app ds none p1).2 = Except.ok () ∧
    (set_active_tensors app ds none p2).2 = Except.ok () ∧
    (set_active_scalars app ds none p3).2 = Except.ok () :=
  ⟨rfl, rfl, rfl, rfl, rfl, rfl⟩

/-! ### Claim C10 -/

/-- Claim C10: `copy_meta_from` replaces the destination's recorded
active-scalars info with the source's resolved one, its recorded
active-vectors info with the source's resolved one, and its texture table
with the source's textures, while the destination's recorded
active-tensors info and its array tables stay unchanged (tensors metadata
is not copied). -/
theorem copy_meta_spec (app : FieldAssociation → String → Int)
    (dst src : DataSet) (vi : ActiveArrayInfo)
    (hv : (active_vectors_info app (active_scalars_info src).1).2 = Except.ok vi) :
    (copy_meta_from app dst src).2 = Except.ok () ∧
    (copy_meta_from app dst src).1.1.scalarsInfo = (active_scalars_info src).2 ∧
    (copy_meta_from app dst src).1.1.vectorsInfo = vi ∧
    (copy_meta_from app dst src).1.1.textures = src.textures ∧
    (copy_meta_from app dst src).1.1.tensorsInfo = dst.tensorsInfo ∧
    (copy_meta_from app dst src).1.1.pointTable = dst.pointTable ∧
    (copy_meta_from app dst src).1.1.cellTable = dst.cellTable ∧
    (copy_meta_from app dst src).1.1.fieldTable = dst.fieldTable := by
  unfold copy_meta_from
  dsimp only
  rw [hv]
  refine ⟨rfl, rfl, rfl, ?_, rfl, rfl, rfl, rfl⟩
  show (active_vectors_info app (active_scalars_info src).1).1.textures = src.textures
  rw [avi_textures, (asi_preserve src).2.2.2.2.2.1]

/-- Witness for C10: the source's textures are copied and the destination
keeps its own tensors register. -/
theorem copy_meta_spec_witness :
    (copy_meta_from applyOk { emptyDS with tensorsInfo := ⟨FieldAssociation.CELL, some "z"⟩ } { emptyDS with textures := [("t", 3)], tensorsInfo := ⟨FieldAssociation.CELL, some "q"⟩ }).1.1.textures = [("t", 3)] ∧
    (copy_meta_from applyOk { emptyDS with tensorsInfo := ⟨FieldAssociation.CELL, some "z"⟩ } { emptyDS with textures := [("t", 3)], tensorsInfo := ⟨FieldAssociation.CELL, some "q"⟩ }).1.1.tensorsInfo = ⟨FieldAssociation.CELL, some "z"⟩ := by
  have h := copy_meta_spec applyOk
    { emptyDS with tensorsInfo := ⟨FieldAssociation.CELL, some "z"⟩ }
    { emptyDS with textures := [("t", 3)], tensorsInfo := ⟨FieldAssociation.CELL, some "q"⟩ }
    ⟨FieldAssociation.POINT, none⟩ rfl
  exact ⟨h.2.2.2.1, h.2.2.2.2.1⟩

end PyVista
